import Mathlib

/-!
Verification of the repository's translation pipeline
(`.github/translation/translate_repo.py`) against its specification.

Strings are modelled as `List Char` (Python `str` is a sequence of Unicode
code points).  Every definition below is a direct transcription of the
corresponding Python function; non-structural recursions are written with an
explicit fuel argument that the wrapper instantiates with the input length,
which is always sufficient because every recursive step consumes at least one
character.
-/

namespace TranslateRepo

/-- Characters stripped by Python `str.strip()` (the ASCII whitespace set;
only these occur in the inputs under consideration). -/
def isPySpace (c : Char) : Bool :=
  c == ' ' || c == '\t' || c == '\n' || c == '\r' || c == '\x0b' || c == '\x0c'

/-- Python `str.strip()`: remove leading and trailing whitespace. -/
def pyStrip (t : List Char) : List Char :=
  ((t.dropWhile isPySpace).reverse.dropWhile isPySpace).reverse

/-- Python 3 regex `\w` (Unicode-aware): ASCII alphanumerics, underscore and —
for the character ranges produced by this program's replacement strings —
kana/CJK letters (code points from U+3040 up). -/
def isWordChar (c : Char) : Bool :=
  c.isAlphanum || c == '_' || decide (0x3040 ≤ c.toNat)

/-- Match `pat` case-insensitively as a prefix of `t`; on success return the
rest of `t` (the semantics of the literal part of a rule under
`re.IGNORECASE`). -/
def dropCI : List Char → List Char → Option (List Char)
  | [], t => some t
  | _ :: _, [] => none
  | p :: ps, c :: cs => if p.toLower == c.toLower then dropCI ps cs else none

/-- Boundary check: `\b` after a match whose last character is a word character: holds iff the
remaining text is empty or starts with a non-word character. -/
def noWordAhead : List Char → Bool
  | [] => true
  | c :: _ => !(isWordChar c)

/-- Try a rule `\b stem (sfx)? \b` at the current position of `t` (the leading
`\b` has already been checked by the caller).  The optional suffix group is
greedy: the engine first tries to consume it, backtracking to the bare stem if
the trailing `\b` then fails — exactly Python `re`'s behaviour. -/
def tryMatch (stem : List Char) (sfx : Option (List Char)) (t : List Char) :
    Option (List Char) :=
  match dropCI stem t with
  | none => none
  | some r1 =>
    match sfx with
    | none => if noWordAhead r1 then some r1 else none
    | some suf =>
      match dropCI suf r1 with
      | some r2 =>
        if noWordAhead r2 then some r2
        else if noWordAhead r1 then some r1 else none
      | none => if noWordAhead r1 then some r1 else none

/-- One pass of `re.sub(r"\b<stem>(<sfx>)?\b", rep, ·, flags=re.IGNORECASE)`:
scan left to right, replacing every non-overlapping match; scanning resumes
after the matched text of the *original* string.  `prevW` records whether the
character just before the current position is a word character (for the
leading `\b`; every stem starts and ends with an ASCII letter).  `fuel`
bounds the recursion; each step consumes at least one character, so the
wrapper's `t.length` is always enough. -/
def ruleSubF (stem : List Char) (sfx : Option (List Char)) (rep : List Char) :
    Nat → Bool → List Char → List Char
  | _, _, [] => []
  | 0, _, t => t
  | fuel + 1, prevW, c :: cs =>
    match (if prevW then none else tryMatch stem sfx (c :: cs)) with
    | some rest => rep ++ ruleSubF stem sfx rep fuel true rest
    | none => c :: ruleSubF stem sfx rep fuel (isWordChar c) cs

/-- Wrapper: `re.sub` for one rule of the catalog, over the whole string. -/
def ruleSub (stem : List Char) (sfx : Option (List Char)) (rep : List Char)
    (t : List Char) : List Char :=
  ruleSubF stem sfx rep t.length false t

/-- Python `str.replace` with an empty pattern: the replacement is inserted
before every character and at the end. -/
def pyReplaceEmpty (rep : List Char) : List Char → List Char
  | [] => rep
  | c :: cs => rep ++ c :: pyReplaceEmpty rep cs

/-- Python `str.replace` with a non-empty pattern, fuelled: replace every
non-overlapping occurrence, left to right. -/
def pyReplaceF (pat rep : List Char) : Nat → List Char → List Char
  | _, [] => []
  | 0, t => t
  | fuel + 1, c :: cs =>
    if pat.isPrefixOf (c :: cs) then rep ++ pyReplaceF pat rep fuel ((c :: cs).drop pat.length)
    else c :: pyReplaceF pat rep fuel cs

/-- Python `str.replace pat rep` (all occurrences). -/
def pyReplace (pat rep t : List Char) : List Char :=
  if pat.isEmpty then pyReplaceEmpty rep t else pyReplaceF pat rep t.length t

/-- One entry of the rule catalog: pattern `\b<stem>(<sfx>)?\b` with
replacement `rep` (the optional group is never referenced by a replacement). -/
structure Rule where
  stem : List Char
  sfx : Option (List Char)
  rep : List Char

/-- The fixed rule catalog of `rule_based_translate`, in source order. -/
def reps : List Rule := [
  ⟨"Execute".data, some "s".data, "実行します".data⟩,
  ⟨"Search".data, some "es".data, "検索します".data⟩,
  ⟨"Create".data, some "s".data, "作成します".data⟩,
  ⟨"Open".data, some "s".data, "開きます".data⟩,
  ⟨"Read".data, some "s".data, "読み取ります".data⟩,
  ⟨"Write".data, some "s".data, "書き込みます".data⟩,
  ⟨"Update".data, some "s".data, "更新します".data⟩,
  ⟨"Delete".data, some "s".data, "削除します".data⟩,
  ⟨"List".data, some "s".data, "一覧を取得します".data⟩,
  ⟨"Return".data, some "s".data, "返します".data⟩,
  ⟨"Check".data, some "s".data, "確認します".data⟩,
  ⟨"Validate".data, some "s".data, "検証します".data⟩,
  ⟨"Generate".data, some "s".data, "生成します".data⟩,
  ⟨"Upload".data, some "s".data, "アップロードします".data⟩,
  ⟨"Download".data, some "s".data, "ダウンロードします".data⟩,
  ⟨"Convert".data, some "s".data, "変換します".data⟩,
  ⟨"Compare".data, some "s".data, "比較します".data⟩,
  ⟨"Extract".data, some "s".data, "抽出します".data⟩,
  ⟨"Filter".data, some "s".data, "フィルタします".data⟩,
  ⟨"Sort".data, some "s".data, "ソートします".data⟩,
  ⟨"Summarize".data, some "s".data, "要約します".data⟩,
  ⟨"Translate".data, some "s".data, "翻訳します".data⟩,
  ⟨"Analyze".data, some "s".data, "分析します".data⟩,
  ⟨"Schedule".data, some "s".data, "スケジュールします".data⟩,
  ⟨"Notify".data, some "ies".data, "通知します".data⟩,
  ⟨"file".data, some "s".data, "ファイル".data⟩,
  ⟨"folder".data, some "s".data, "フォルダ".data⟩,
  ⟨"directory".data, some "ies".data, "ディレクトリ".data⟩,
  ⟨"path".data, some "s".data, "パス".data⟩,
  ⟨"command".data, some "s".data, "コマンド".data⟩,
  ⟨"script".data, some "s".data, "スクリプト".data⟩,
  ⟨"repository".data, none, "リポジトリ".data⟩,
  ⟨"branch".data, some "es".data, "ブランチ".data⟩,
  ⟨"commit".data, some "s".data, "コミット".data⟩,
  ⟨"pull request".data, some "s".data, "プルリクエスト".data⟩,
  ⟨"issue".data, some "s".data, "Issue".data⟩,
  ⟨"token".data, some "s".data, "トークン".data⟩,
  ⟨"parameter".data, some "s".data, "パラメータ".data⟩,
  ⟨"property".data, some "ies".data, "プロパティ".data⟩,
  ⟨"schema".data, none, "スキーマ".data⟩,
  ⟨"model".data, some "s".data, "モデル".data⟩,
  ⟨"tool".data, some "s".data, "ツール".data⟩,
  ⟨"query".data, none, "クエリ".data⟩,
  ⟨"log".data, some "s".data, "ログ".data⟩,
  ⟨"error".data, some "s".data, "エラー".data⟩,
  ⟨"warning".data, some "s".data, "警告".data⟩,
  ⟨"output".data, none, "出力".data⟩,
  ⟨"input".data, none, "入力".data⟩,
  ⟨"result".data, some "s".data, "結果".data⟩,
  ⟨"example".data, some "s".data, "例".data⟩,
  ⟨"default".data, none, "既定値".data⟩]

/-- A glossary: insertion-ordered source-term → target-term pairs
(Python `dict` preserves insertion order). -/
abbrev Glossary := List (List Char × List Char)

/-- Function `rule_based_translate(s, glossary)`: apply every catalog rule in order,
then every glossary entry as a literal `str.replace`, then the two fixed
abbreviation substitutions. -/
def rule_based_translate (s : List Char) (glossary : Glossary) : List Char :=
  let out1 := reps.foldl (fun acc r => ruleSub r.stem r.sfx r.rep acc) s
  let out2 := glossary.foldl (fun acc kv => pyReplace kv.1 kv.2 acc) out1
  pyReplace " i.e.".data " すなわち ".data (pyReplace " e.g.".data " 例:".data out2)

/-! ## Translation dispatcher (`translate_text_block`)

The two network backends (`openai_translate`, `deepl_translate`) are opaque
external calls; they are modelled as parameters returning `Except Unit`
(`Except.error` = the call raised).  The module-level flags `USE_OPENAI` and
`USE_DEEPL` (derived once from the environment) are the Boolean fields. -/

structure Backends where
  useOpenai : Bool
  useDeepl : Bool
  openaiF : List Char → Except Unit (List Char)
  deeplF : List Char → Except Unit (List Char)

/-- The `try`/`except` body of `translate_text_block`: pick the backend by the
fixed priority, fall back to `rule_based_translate` on any raised failure. -/
def dispatch (be : Backends) (text : List Char) (glossary : Glossary) : List Char :=
  match (if be.useOpenai then be.openaiF text
         else if be.useDeepl then be.deeplF text
         else Except.ok (rule_based_translate text glossary)) with
  | Except.ok ja => ja
  | Except.error _ => rule_based_translate text glossary

/-- The bilingual separator literal from
`f"\x7bja\x7d\n\n[English]\n\x7btext\x7d"`. -/
def bilingualSep : List Char := "\n\n[English]\n".data

/-- Function `translate_text_block(text, glossary, bilingual)`. -/
def translate_text_block (be : Backends) (text : List Char) (glossary : Glossary)
    (bilingual : Bool) : List Char :=
  if pyStrip text = [] then text
  else
    let ja := dispatch be text glossary
    if bilingual then ja ++ bilingualSep ++ text else ja

/-! ## Markdown segmenter (`split_md_blocks`)

`re.split(r"(```.*?```)", text, flags=re.DOTALL)`: the leftmost match of the
fenced-block pattern is the earliest position carrying three backticks that is
followed (anywhere later, `.` matching newlines) by another three backticks;
non-greedy `.*?` makes the match end at the earliest such closer.  `re.split`
with a capturing group alternates unmatched text with the captured matches. -/

inductive SpanKind where
  | text
  | code
deriving DecidableEq

def fenceMark : List Char := ['`', '`', '`']

/-- Find the earliest closing fence in `l`: returns the part before it and the
part after it. -/
def findClose : List Char → Option (List Char × List Char)
  | [] => none
  | c :: cs =>
    if fenceMark.isPrefixOf (c :: cs) then some ([], (c :: cs).drop 3)
    else
      match findClose cs with
      | some (pre, rest) => some (c :: pre, rest)
      | none => none

/-- Leftmost-shortest match of ``` .*? ```: returns
(text before the match, the matched fenced block, text after it). -/
def findFence : List Char → Option (List Char × List Char × List Char)
  | [] => none
  | c :: cs =>
    match (if fenceMark.isPrefixOf (c :: cs) then findClose ((c :: cs).drop 3) else none) with
    | some (mid, rest) => some ([], fenceMark ++ mid ++ fenceMark, rest)
    | none =>
      match findFence cs with
      | some (pre, m, rest) => some (c :: pre, m, rest)
      | none => none

/-- Body of `split_md_blocks`, fuelled: each recursive step strips one fenced block
(at least six characters), so `text.length` fuel always suffices. -/
def splitF : Nat → List Char → List (SpanKind × List Char)
  | 0, t => [(SpanKind.text, t)]
  | fuel + 1, t =>
    match findFence t with
    | none => [(SpanKind.text, t)]
    | some (pre, m, rest) =>
      (SpanKind.text, pre) :: (SpanKind.code, m) :: splitF fuel rest

/-- Function `split_md_blocks(text)`: alternating text/code spans. -/
def split_md_blocks (t : List Char) : List (SpanKind × List Char) :=
  splitF t.length t

/-- Concatenation `"".join` of a list of strings. -/
def joinStrs : List (List Char) → List Char
  | [] => []
  | s :: rest => s ++ joinStrs rest

/-- Function `translate_markdown_like(text, glossary, bilingual)`: code spans pass
through verbatim, text spans go through `translate_text_block`, and the
results are joined. -/
def translate_markdown_like (be : Backends) (glossary : Glossary) (bilingual : Bool)
    (t : List Char) : List Char :=
  joinStrs ((split_md_blocks t).map (fun s =>
    if s.1 = SpanKind.code then s.2 else translate_text_block be s.2 glossary bilingual))

/-- Substring test (`p` occurs contiguously in `t`). -/
def isSubstring (p : List Char) : List Char → Bool
  | [] => p.isPrefixOf []
  | c :: cs => p.isPrefixOf (c :: cs) || isSubstring p cs

/-- The kind sequence `text, code, text, code, …, text` with `n` code spans. -/
def kindPattern : Nat → List SpanKind
  | 0 => [SpanKind.text]
  | n + 1 => SpanKind.text :: SpanKind.code :: kindPattern n

/-! ## JSON field walker (`translate_json_descriptions`)

JSON-like trees (`json.loads` output): dicts are insertion-ordered key/value
lists, lists are sequences, scalars are strings, numbers, booleans and null
(the numeric payload is modelled as `Int`; it is carried through untouched
either way). -/

mutual
inductive Json where
  | str (s : List Char)
  | num (n : Int)
  | bool (b : Bool)
  | null
  | arr (xs : JArr)
  | obj (kvs : JObj)
inductive JArr where
  | nil
  | cons (hd : Json) (tl : JArr)
inductive JObj where
  | nil
  | cons (key : List Char) (val : Json) (tl : JObj)
end

/-- The designated field name of the walker. -/
def descriptionKey : List Char := "description".data

mutual
/-- Function `translate_json_descriptions(obj, glossary, bilingual)`: rebuild
the tree, translating exactly the string values stored under the key
`"description"`; recurse into every other value. -/
def translate_json_descriptions (be : Backends) (g : Glossary) (b : Bool) :
    Json → Json
  | Json.arr xs => Json.arr (tjdArr be g b xs)
  | Json.obj kvs => Json.obj (tjdObj be g b kvs)
  | x => x
termination_by j => sizeOf j
def tjdArr (be : Backends) (g : Glossary) (b : Bool) : JArr → JArr
  | JArr.nil => JArr.nil
  | JArr.cons x xs => JArr.cons (translate_json_descriptions be g b x) (tjdArr be g b xs)
termination_by xs => sizeOf xs
def tjdObj (be : Backends) (g : Glossary) (b : Bool) : JObj → JObj
  | JObj.nil => JObj.nil
  | JObj.cons k (Json.str s) tl =>
    if k = descriptionKey then
      JObj.cons k (Json.str (translate_text_block be s g b)) (tjdObj be g b tl)
    else
      JObj.cons k (translate_json_descriptions be g b (Json.str s)) (tjdObj be g b tl)
  | JObj.cons k v tl => JObj.cons k (translate_json_descriptions be g b v) (tjdObj be g b tl)
termination_by kvs => sizeOf kvs
end

mutual
/-- Checker for the shape-preservation claim: the two trees have the same
constructors, array lengths, key sequences and scalar payloads, except that a
string directly under a `"description"` key in the first tree corresponds to
its `translate_text_block` image in the second. -/
def shapeOk (be : Backends) (g : Glossary) (b : Bool) : Json → Json → Bool
  | Json.str s, Json.str s2 => s2 == s
  | Json.num n, Json.num n2 => n2 == n
  | Json.bool x, Json.bool x2 => x2 == x
  | Json.null, Json.null => true
  | Json.arr xs, Json.arr ys => shapeOkArr be g b xs ys
  | Json.obj kvs, Json.obj kvs2 => shapeOkObj be g b kvs kvs2
  | _, _ => false
termination_by j _ => sizeOf j
def shapeOkArr (be : Backends) (g : Glossary) (b : Bool) : JArr → JArr → Bool
  | JArr.nil, JArr.nil => true
  | JArr.cons x xs, JArr.cons y ys => shapeOk be g b x y && shapeOkArr be g b xs ys
  | _, _ => false
termination_by xs _ => sizeOf xs
def shapeOkObj (be : Backends) (g : Glossary) (b : Bool) : JObj → JObj → Bool
  | JObj.nil, JObj.nil => true
  | JObj.cons k (Json.str s) tl, JObj.cons k2 v2 tl2 =>
    k2 == k &&
    (if k = descriptionKey then
       match v2 with
       | Json.str s2 => s2 == translate_text_block be s g b
       | _ => false
     else shapeOk be g b (Json.str s) v2) &&
    shapeOkObj be g b tl tl2
  | JObj.cons k v tl, JObj.cons k2 v2 tl2 =>
    k2 == k && shapeOk be g b v v2 && shapeOkObj be g b tl tl2
  | _, _ => false
termination_by kvs _ => sizeOf kvs
end

/-! ## Glossary store (`load_glossary`)

`csv.DictReader` is external; its output is modelled row by row.  A cell is
`absent` when the column header itself is missing (`row.get("en","")` then
yields `""`), `null` when the row is shorter than the header (`DictReader`
fills missing fields with its `restval`, `None`), or a string.  `p.exists()`
false is modelled by the `none` input.  `None.strip()` raises
`AttributeError`, modelled by `Except.error`. -/

inductive Cell where
  | absent
  | null
  | str (s : List Char)

structure Row where
  en : Cell
  ja : Cell

/-- Evaluate `row.get(col, "").strip()` for one cell. -/
def getStrip : Cell → Except Unit (List Char)
  | Cell.absent => Except.ok []
  | Cell.null => Except.error ()
  | Cell.str s => Except.ok (pyStrip s)

/-- Python `d[k] = v` on an insertion-ordered dict: overwrite in place if the
key is present, else append. -/
def dictInsert (d : Glossary) (k v : List Char) : Glossary :=
  if d.any (fun kv => kv.1 = k) then
    d.map (fun kv => if kv.1 = k then (k, v) else kv)
  else d ++ [(k, v)]

/-- Lookup in an insertion-ordered dict. -/
def glookup : Glossary → List Char → Option (List Char)
  | [], _ => none
  | kv :: rest, k => if kv.1 = k then some kv.2 else glookup rest k

/-- The row loop of `load_glossary`; an uncaught exception aborts it. -/
def loadRows : List Row → Glossary → Except Unit Glossary
  | [], d => Except.ok d
  | r :: rs, d =>
    match getStrip r.en, getStrip r.ja with
    | Except.ok en, Except.ok ja =>
      loadRows rs (if en ≠ [] ∧ ja ≠ [] then dictInsert d en ja else d)
    | _, _ => Except.error ()

/-- Function `load_glossary(p)`: `none` = the file does not exist. -/
def load_glossary : Option (List Row) → Except Unit Glossary
  | none => Except.ok []
  | some rows => loadRows rows []

/-! ## Supporting lemmas -/

theorem prefixOf_append_drop (p : List Char) :
    ∀ t, p.isPrefixOf t = true → p ++ t.drop p.length = t := by
  induction p with
  | nil => intro t _; simp
  | cons a p' ih =>
    intro t h
    cases t with
    | nil => simp [List.isPrefixOf] at h
    | cons b t' =>
      rw [List.isPrefixOf_cons₂] at h
      simp only [Bool.and_eq_true, beq_iff_eq] at h
      obtain ⟨rfl, h2⟩ := h
      simpa using ih t' h2

theorem prefixOf_self_append (p r : List Char) : p.isPrefixOf (p ++ r) = true := by
  induction p with
  | nil => simp
  | cons a p' ih => simp [List.isPrefixOf_cons₂, ih]

theorem substring_self_append (p r : List Char) : isSubstring p (p ++ r) = true := by
  cases h : p ++ r with
  | nil =>
    have hp : p = [] := by cases p <;> simp_all
    subst hp
    simp [isSubstring]
  | cons c cs =>
    rw [isSubstring, ← h, prefixOf_self_append]
    simp

theorem substring_append_left (p t a : List Char) (h : isSubstring p t = true) :
    isSubstring p (a ++ t) = true := by
  induction a with
  | nil => simpa
  | cons c a' ih =>
    rw [List.cons_append, isSubstring, ih]
    simp

theorem substring_joinStrs (l : List (List Char)) (x : List Char) (hx : x ∈ l) :
    isSubstring x (joinStrs l) = true := by
  induction l with
  | nil => cases hx
  | cons s rest ih =>
    rw [joinStrs]
    rcases List.mem_cons.mp hx with h | h
    · subst h
      exact substring_self_append x (joinStrs rest)
    · exact substring_append_left _ _ _ (ih h)

theorem findClose_eq (l : List Char) :
    ∀ pre rest, findClose l = some (pre, rest) → pre ++ fenceMark ++ rest = l := by
  induction l with
  | nil => intro pre rest h; simp [findClose] at h
  | cons c cs ih =>
    intro pre rest h
    rw [findClose] at h
    split at h
    · rename_i hp
      rw [Option.some.injEq, Prod.mk.injEq] at h
      obtain ⟨h1, h2⟩ := h
      subst h1; subst h2
      simpa using prefixOf_append_drop fenceMark (c :: cs) hp
    · rename_i hp
      split at h
      · rename_i p2 r2 heq
        rw [Option.some.injEq, Prod.mk.injEq] at h
        obtain ⟨h1, h2⟩ := h
        subst h1; subst h2
        have hx := ih p2 r2 heq
        simp [← hx]
      · exact absurd h (by simp)

theorem findFence_eq (l : List Char) :
    ∀ pre m rest, findFence l = some (pre, m, rest) →
      pre ++ m ++ rest = l ∧ 6 ≤ m.length := by
  induction l with
  | nil => intro pre m rest h; simp [findFence] at h
  | cons c cs ih =>
    intro pre m rest h
    rw [findFence] at h
    split at h
    · rename_i mid rest2 heq
      -- a fenced block starts right here
      have hp : fenceMark.isPrefixOf (c :: cs) = true := by
        by_cases hq : fenceMark.isPrefixOf (c :: cs) = true
        · exact hq
        · simp [hq] at heq
      rw [if_pos hp] at heq
      have hc := findClose_eq _ _ _ heq
      rw [Option.some.injEq, Prod.mk.injEq, Prod.mk.injEq] at h
      obtain ⟨h1, h2, h3⟩ := h
      subst h1; subst h2; subst h3
      constructor
      · have hd := prefixOf_append_drop fenceMark (c :: cs) hp
        have hl : fenceMark.length = 3 := rfl
        rw [hl] at hd
        calc ([] : List Char) ++ (fenceMark ++ mid ++ fenceMark) ++ rest2
            = fenceMark ++ (mid ++ fenceMark ++ rest2) := by simp [List.append_assoc]
          _ = fenceMark ++ (c :: cs).drop 3 := by rw [hc]
          _ = c :: cs := hd
      · simp [fenceMark]
    · split at h
      · rename_i p2 m2 r2 heq
        rw [Option.some.injEq, Prod.mk.injEq, Prod.mk.injEq] at h
        obtain ⟨h1, h2, h3⟩ := h
        subst h1; subst h2; subst h3
        obtain ⟨ha, hb⟩ := ih p2 m2 r2 heq
        exact ⟨by simp [← ha], hb⟩
      · exact absurd h (by simp)

theorem splitF_join (fuel : Nat) :
    ∀ t, joinStrs ((splitF fuel t).map Prod.snd) = t := by
  induction fuel with
  | zero => intro t; simp [splitF, joinStrs]
  | succ f ih =>
    intro t
    rw [splitF]
    cases h : findFence t with
    | none => simp [joinStrs]
    | some x =>
      obtain ⟨pre, m, rest⟩ := x
      have hx := (findFence_eq t pre m rest h).1
      simp only [List.map_cons, joinStrs, ih rest]
      rw [← List.append_assoc, hx]

theorem splitF_kinds (fuel : Nat) :
    ∀ t, ∃ n, (splitF fuel t).map Prod.fst = kindPattern n
      ∧ (splitF fuel t).length = 2 * n + 1 := by
  induction fuel with
  | zero => intro t; exact ⟨0, by simp [splitF, kindPattern]⟩
  | succ f ih =>
    intro t
    rw [splitF]
    cases h : findFence t with
    | none => exact ⟨0, by simp [kindPattern]⟩
    | some x =>
      obtain ⟨pre, m, rest⟩ := x
      obtain ⟨n, h1, h2⟩ := ih rest
      refine ⟨n + 1, ?_, ?_⟩
      · simp only [List.map_cons, h1]
        rfl
      · simp only [List.length_cons, h2]
        omega

theorem splitF_noFence (fuel : Nat) (t : List Char) (h : findFence t = none) :
    splitF fuel t = [(SpanKind.text, t)] := by
  cases fuel <;> simp [splitF, h]

theorem kindPattern_ne_nil (n : Nat) : kindPattern n ≠ [] := by
  cases n <;> simp [kindPattern]

theorem kindPattern_head (n : Nat) : (kindPattern n).head? = some SpanKind.text := by
  cases n <;> rfl

theorem kindPattern_getLast (n : Nat) : (kindPattern n).getLast? = some SpanKind.text := by
  induction n with
  | zero => rfl
  | succ k ih =>
    have h2 : kindPattern (k + 1) = SpanKind.text :: SpanKind.code :: kindPattern k := rfl
    rw [h2, List.getLast?_cons_cons]
    cases hk : kindPattern k with
    | nil => exact absurd hk (kindPattern_ne_nil k)
    | cons a l =>
      rw [List.getLast?_cons_cons, ← hk, ih]

theorem pyReplaceF_not_sub (pat rep : List Char) :
    ∀ fuel t, isSubstring pat t = false → pyReplaceF pat rep fuel t = t := by
  intro fuel
  induction fuel with
  | zero => intro t _; cases t <;> rfl
  | succ f ih =>
    intro t h
    cases t with
    | nil => rfl
    | cons c cs =>
      rw [isSubstring] at h
      simp only [Bool.or_eq_false_iff] at h
      obtain ⟨h1, h2⟩ := h
      rw [pyReplaceF, if_neg (by simp [h1])]
      rw [ih cs h2]

theorem pyReplace_not_sub (pat rep t : List Char) (hne : pat ≠ [])
    (h : isSubstring pat t = false) : pyReplace pat rep t = t := by
  have he : pat.isEmpty = false := by cases pat <;> simp_all
  rw [pyReplace, he]
  simp only [Bool.false_eq_true, if_false]
  exact pyReplaceF_not_sub pat rep t.length t h

theorem loadRows_append_ok (a : List Row) :
    ∀ (b : List Row) (d d2 : Glossary), loadRows a d = Except.ok d2 →
      loadRows (a ++ b) d = loadRows b d2 := by
  induction a with
  | nil =>
    intro b d d2 h
    rw [loadRows] at h
    injection h with h2
    subst h2
    rfl
  | cons r rs ih =>
    intro b d d2 h
    rw [loadRows] at h
    rw [List.cons_append, loadRows]
    cases he : getStrip r.en with
    | error e => rw [he] at h; cases h
    | ok en =>
      cases hj : getStrip r.ja with
      | error e => rw [he, hj] at h; cases h
      | ok ja =>
        rw [he, hj] at h
        exact ih b _ d2 h

theorem loadRows_ok (rows : List Row)
    (h : ∀ r ∈ rows, r.en ≠ Cell.null ∧ r.ja ≠ Cell.null) :
    ∀ d : Glossary, ∃ g2, loadRows rows d = Except.ok g2 := by
  induction rows with
  | nil => intro d; exact ⟨d, rfl⟩
  | cons r rs ih =>
    intro d
    obtain ⟨h1, h2⟩ := h r (List.mem_cons_self r rs)
    have hrs : ∀ x ∈ rs, x.en ≠ Cell.null ∧ x.ja ≠ Cell.null :=
      fun x hx => h x (List.mem_cons_of_mem r hx)
    have he : ∃ en, getStrip r.en = Except.ok en := by
      cases hc : r.en with
      | null => exact absurd hc h1
      | absent => exact ⟨[], rfl⟩
      | str s => exact ⟨pyStrip s, rfl⟩
    have hj : ∃ ja, getStrip r.ja = Except.ok ja := by
      cases hc : r.ja with
      | null => exact absurd hc h2
      | absent => exact ⟨[], rfl⟩
      | str s => exact ⟨pyStrip s, rfl⟩
    obtain ⟨en, he⟩ := he
    obtain ⟨ja, hj⟩ := hj
    rw [loadRows, he, hj]
    exact ih hrs _

theorem loadRows_skip_mid (r : Row) (en0 ja0 : List Char)
    (he : getStrip r.en = Except.ok en0) (hj : getStrip r.ja = Except.ok ja0)
    (hskip : en0 = [] ∨ ja0 = []) :
    ∀ (rows1 rows2 : List Row) (d : Glossary),
      loadRows (rows1 ++ r :: rows2) d = loadRows (rows1 ++ rows2) d := by
  intro rows1
  induction rows1 with
  | nil =>
    intro rows2 d
    rw [List.nil_append, List.nil_append, loadRows, he, hj]
    have hcond : ¬(en0 ≠ [] ∧ ja0 ≠ []) := by
      rcases hskip with h | h <;> simp [h]
    show loadRows rows2 (if en0 ≠ [] ∧ ja0 ≠ [] then dictInsert d en0 ja0 else d)
      = loadRows rows2 d
    rw [if_neg hcond]
  | cons r2 rs2 ih =>
    intro rows2 d
    rw [List.cons_append, List.cons_append, loadRows, loadRows]
    cases he2 : getStrip r2.en with
    | error e => rfl
    | ok en2 =>
      cases hj2 : getStrip r2.ja with
      | error e => rfl
      | ok ja2 => exact ih rows2 _

theorem glookup_dictInsert (d : Glossary) (k v : List Char) :
    glookup (dictInsert d k v) k = some v := by
  rw [dictInsert]
  split
  · rename_i hany
    induction d with
    | nil => simp at hany
    | cons kv rest ih =>
      by_cases hk : kv.1 = k
      · simp [glookup, hk]
      · rw [List.map_cons, if_neg hk, glookup, if_neg hk]
        have hrest : rest.any (fun kv => decide (kv.1 = k)) = true := by
          rw [List.any_cons] at hany
          simp only [Bool.or_eq_true] at hany
          rcases hany with h | h
          · exact absurd (of_decide_eq_true h) hk
          · exact h
        exact ih hrest
  · rename_i hany
    induction d with
    | nil => simp [glookup]
    | cons kv rest ih =>
      have hk : ¬(kv.1 = k) := by
        intro hkk
        apply hany
        rw [List.any_cons]
        simp [hkk]
      rw [List.cons_append, glookup, if_neg hk]
      apply ih
      intro hrest
      apply hany
      rw [List.any_cons, hrest]
      simp

mutual
theorem shapeOk_tjd (be : Backends) (g : Glossary) (b : Bool) :
    (j : Json) → shapeOk be g b j (translate_json_descriptions be g b j) = true
  | Json.str s => by simp [translate_json_descriptions, shapeOk]
  | Json.num n => by simp [translate_json_descriptions, shapeOk]
  | Json.bool x => by simp [translate_json_descriptions, shapeOk]
  | Json.null => by simp [translate_json_descriptions, shapeOk]
  | Json.arr xs => by
    have h := shapeOkArr_tjd be g b xs
    simp [translate_json_descriptions, shapeOk, h]
  | Json.obj kvs => by
    have h := shapeOkObj_tjd be g b kvs
    simp [translate_json_descriptions, shapeOk, h]
termination_by j => sizeOf j

theorem shapeOkArr_tjd (be : Backends) (g : Glossary) (b : Bool) :
    (xs : JArr) → shapeOkArr be g b xs (tjdArr be g b xs) = true
  | JArr.nil => by simp [tjdArr, shapeOkArr]
  | JArr.cons x xs => by
    have h1 := shapeOk_tjd be g b x
    have h2 := shapeOkArr_tjd be g b xs
    simp [tjdArr, shapeOkArr, h1, h2]
termination_by xs => sizeOf xs

theorem shapeOkObj_tjd (be : Backends) (g : Glossary) (b : Bool) :
    (kvs : JObj) → shapeOkObj be g b kvs (tjdObj be g b kvs) = true
  | JObj.nil => by simp [tjdObj, shapeOkObj]
  | JObj.cons k (Json.str s) tl => by
    have h2 := shapeOkObj_tjd be g b tl
    by_cases hk : k = descriptionKey
    · simp [tjdObj, shapeOkObj, hk, h2]
    · simp [tjdObj, shapeOkObj, hk, h2, translate_json_descriptions, shapeOk]
  | JObj.cons k (Json.num n) tl => by
    have h1 := shapeOk_tjd be g b (Json.num n)
    have h2 := shapeOkObj_tjd be g b tl
    simp [tjdObj, shapeOkObj, h1, h2]
  | JObj.cons k (Json.bool x) tl => by
    have h1 := shapeOk_tjd be g b (Json.bool x)
    have h2 := shapeOkObj_tjd be g b tl
    simp [tjdObj, shapeOkObj, h1, h2]
  | JObj.cons k Json.null tl => by
    have h1 := shapeOk_tjd be g b Json.null
    have h2 := shapeOkObj_tjd be g b tl
    simp [tjdObj, shapeOkObj, h1, h2]
  | JObj.cons k (Json.arr xs) tl => by
    have h1 := shapeOk_tjd be g b (Json.arr xs)
    have h2 := shapeOkObj_tjd be g b tl
    simp [tjdObj, shapeOkObj, h1, h2]
  | JObj.cons k (Json.obj o) tl => by
    have h1 := shapeOk_tjd be g b (Json.obj o)
    have h2 := shapeOkObj_tjd be g b tl
    simp [tjdObj, shapeOkObj, h1, h2]
termination_by kvs => sizeOf kvs
end

theorem zip_map_frame (f : SpanKind × List Char → List Char)
    (hf : ∀ s : SpanKind × List Char, s.1 = SpanKind.code → f s = s.2) :
    ∀ l : List (SpanKind × List Char),
      (l.zip (l.map (fun s => (s.1, f s)))).all
        (fun p => if p.1.1 = SpanKind.code then p.2.2 == p.1.2 else true) = true := by
  intro l
  induction l with
  | nil => rfl
  | cons s rest ih =>
    rw [List.map_cons, List.zip_cons_cons, List.all_cons, ih]
    by_cases hs : s.1 = SpanKind.code
    · simp [hs, hf s hs]
    · simp [hs]

theorem code_sub_join (f : SpanKind × List Char → List Char)
    (hf : ∀ s : SpanKind × List Char, s.1 = SpanKind.code → f s = s.2)
    (l : List (SpanKind × List Char)) :
    l.all (fun s =>
      if s.1 = SpanKind.code then isSubstring s.2 (joinStrs (l.map f)) else true) = true := by
  rw [List.all_eq_true]
  intro s hs
  by_cases h : s.1 = SpanKind.code
  · have hmem : s.2 ∈ l.map f := List.mem_map.mpr ⟨s, hs, (hf s h)⟩
    simp only [h, if_pos]
    exact substring_joinStrs _ _ hmem
  · simp [h]

/-! ## Claim theorems -/

/-- C1 counterexample: with the glossary mapping "Search" to "サーチ", the
output of the Pattern Translator on the input "Search" is the pattern rule's
replacement "検索します" and does **not** contain the glossary's target term —
the glossary does not win, because the pattern rules have already rewritten
the occurrence before the glossary substitution runs. -/
theorem rule_wins_over_glossary_cex :
    rule_based_translate "Search".data [("Search".data, "サーチ".data)] = "検索します".data
    ∧ isSubstring "サーチ".data
        (rule_based_translate "Search".data [("Search".data, "サーチ".data)]) = false :=
  ⟨by decide, by decide⟩

/-- C1 (amended): glossary substitution runs after the pattern rules, on the
already-rewritten text, so for an occurrence of "Search" that the pattern
rule matches the pattern replacement wins: whatever target term the glossary
assigns to "Search", the output for the input "Search" is the pattern rule's
"検索します", the glossary entry having no effect on that occurrence. -/
theorem pattern_rule_preempts_glossary (g : List Char) :
    rule_based_translate "Search".data [("Search".data, g)] = "検索します".data := by
  have h1 : reps.foldl (fun acc r => ruleSub r.stem r.sfx r.rep acc) "Search".data
      = "検索します".data := by decide
  have h2 : pyReplace "Search".data g "検索します".data = "検索します".data :=
    pyReplace_not_sub _ _ _ (by decide) (by decide)
  have h3 : pyReplace " i.e.".data " すなわち ".data
      (pyReplace " e.g.".data " 例:".data "検索します".data) = "検索します".data := by decide
  simp only [rule_based_translate, h1, List.foldl_cons, List.foldl_nil]
  rw [h2, h3]

/-- C2 counterexample: on the document "a```b", whose opening fence is never
closed, `split_md_blocks` yields a single *text* span holding the whole
document; the remainder from the unbalanced fence onward is not emitted as a
code span, contrary to the claim. -/
theorem unbalanced_fence_kind_cex :
    split_md_blocks "a```b".data = [(SpanKind.text, "a```b".data)]
    ∧ SpanKind.text ≠ SpanKind.code :=
  ⟨by decide, by decide⟩

/-- C2 (amended): for a document that contains a fence marker but in which the
fence pattern finds no balanced match, the whole remainder (unbalanced fence
included) stays inside the single trailing *text*-kind span — the segmenter
returns the entire document as one text span and does not raise. -/
theorem unbalanced_fence_trailing_text (t : List Char)
    (hfence : isSubstring fenceMark t = true) (hnomatch : findFence t = none) :
    split_md_blocks t = [(SpanKind.text, t)] :=
  -- `hfence` records that the document does contain a fence marker (the
  -- unbalanced-fence situation of the claim); the conclusion only needs the
  -- absence of a balanced match.
  splitF_noFence t.length t hnomatch

/-- C2 witness: the amended statement at the concrete document "a```b". -/
theorem unbalanced_fence_trailing_text_witness :
    split_md_blocks "a```b".data = [(SpanKind.text, "a```b".data)] :=
  unbalanced_fence_trailing_text "a```b".data (by decide) (by decide)

/-- C3: `translate_markdown_like` is the join of the per-span images in which
code spans pass through unchanged; the image span list has the same length
and the same kind sequence as the segmentation, code-span contents are
byte-identical (only text-kind content changes), and every code span's
content occurs verbatim as a substring of the final output — for every
behaviour of the translation (any backends, glossary, bilingual flag). -/
theorem code_fence_inviolability (be : Backends) (g : Glossary) (b : Bool) (t : List Char) :
    translate_markdown_like be g b t
      = joinStrs (((split_md_blocks t).map (fun s =>
          (s.1, if s.1 = SpanKind.code then s.2
                else translate_text_block be s.2 g b))).map Prod.snd)
    ∧ ((split_md_blocks t).map (fun s =>
          (s.1, if s.1 = SpanKind.code then s.2
                else translate_text_block be s.2 g b))).length
        = (split_md_blocks t).length
    ∧ ((split_md_blocks t).map (fun s =>
          (s.1, if s.1 = SpanKind.code then s.2
                else translate_text_block be s.2 g b))).map Prod.fst
        = (split_md_blocks t).map Prod.fst
    ∧ ((split_md_blocks t).zip ((split_md_blocks t).map (fun s =>
          (s.1, if s.1 = SpanKind.code then s.2
                else translate_text_block be s.2 g b)))).all
        (fun p => if p.1.1 = SpanKind.code then p.2.2 == p.1.2 else true) = true
    ∧ (split_md_blocks t).all (fun s =>
        if s.1 = SpanKind.code then isSubstring s.2 (translate_markdown_like be g b t)
        else true) = true := by
  refine ⟨?_, ?_, ?_, ?_, ?_⟩
  · rw [translate_markdown_like, List.map_map]
    rfl
  · simp [List.length_map]
  · rw [List.map_map]
    rfl
  · exact zip_map_frame _ (fun s hs => by simp [hs]) _
  · simp only [translate_markdown_like]
    exact code_sub_join _ (fun s hs => by simp [hs]) _

/-- C4: the concatenation, in order, of the span contents produced by
`split_md_blocks` equals the original string, for every input; hence
`translate_markdown_like` under an identity translation (a backend that
returns its input, bilingual off) returns its input unchanged. -/
theorem split_reassemble_roundtrip (t : List Char) :
    joinStrs ((split_md_blocks t).map Prod.snd) = t
    ∧ ∀ (g : Glossary) (ud : Bool) (df : List Char → Except Unit (List Char)),
        translate_markdown_like ⟨true, ud, fun x => Except.ok x, df⟩ g false t = t := by
  constructor
  · exact splitF_join t.length t
  · intro g ud df
    have hid : (fun s : SpanKind × List Char =>
        if s.1 = SpanKind.code then s.2
        else translate_text_block ⟨true, ud, fun x => Except.ok x, df⟩ s.2 g false)
        = Prod.snd := by
      funext s
      by_cases h : s.1 = SpanKind.code
      · simp [h]
      · rw [if_neg h, translate_text_block]
        split
      -- whitespace-only spans are returned as-is; otherwise the identity
      -- backend is selected and returns the span
        · rfl
        · rfl
    rw [translate_markdown_like, hid]
    exact splitF_join t.length t

/-- C5: the JSON walker preserves the whole tree shape — constructors, array
lengths and order, key sequences (hence key sets and the order of
non-designated keys) and all scalar payloads — except that a string directly
under the key "description" is replaced by its `translate_text_block` image,
as checked structurally by `shapeOk`. -/
theorem json_walk_shape_preservation (be : Backends) (g : Glossary) (b : Bool) (j : Json) :
    shapeOk be g b j (translate_json_descriptions be g b j) = true :=
  shapeOk_tjd be g b j

/-- C6: if the selected network backend raises, `translate_text_block`
returns exactly the Pattern Translator's result on the same text (composed
bilingually when the flag is set); the failure is not surfaced and no other
backend output can reach the caller. -/
theorem backend_failure_fallback (be : Backends) (t : List Char) (g : Glossary)
    (b : Bool) (e : Unit) (hws : pyStrip t ≠ [])
    (hfail : (be.useOpenai = true ∧ be.openaiF t = Except.error e)
      ∨ (be.useOpenai = false ∧ be.useDeepl = true ∧ be.deeplF t = Except.error e)) :
    translate_text_block be t g b
      = (if b then rule_based_translate t g ++ bilingualSep ++ t
         else rule_based_translate t g) := by
  have hd : dispatch be t g = rule_based_translate t g := by
    rcases hfail with ⟨h1, h2⟩ | ⟨h1, h2, h3⟩
    · rw [dispatch, if_pos h1, h2]
    · rw [dispatch, if_neg (by simp [h1]), if_pos h2, h3]
  rw [translate_text_block, if_neg hws]
  show (if b then dispatch be t g ++ bilingualSep ++ t else dispatch be t g) = _
  rw [hd]

/-- C6 witness: a failing openai backend on the input "Search" falls back to
the Pattern Translator's result. -/
theorem backend_failure_fallback_witness :
    translate_text_block ⟨true, false, fun _ => Except.error (), fun _ => Except.error ()⟩
      "Search".data [] false = rule_based_translate "Search".data [] := by
  simpa using backend_failure_fallback
    ⟨true, false, fun _ => Except.error (), fun _ => Except.error ()⟩
    "Search".data [] false () (by decide) (Or.inl ⟨rfl, rfl⟩)

/-- C7 counterexample: a row shorter than the header (its source cell is the
`DictReader` fill value `None`) makes `load_glossary` raise an
`AttributeError` (`None.strip()`) instead of being skipped. -/
theorem load_glossary_short_row_cex :
    load_glossary (some [⟨Cell.null, Cell.str "x".data⟩]) = Except.error ()
    ∧ Except.error () ≠ (Except.ok [] : Except Unit Glossary) :=
  ⟨rfl, by simp⟩

/-- C7 (amended): a missing file yields an empty glossary; rows whose cells
are present (absent column or string, never the short-row `None`) never make
the loader raise; a row whose source or target strips to the empty string is
skipped wherever it occurs; and appending a final row for a source term makes
that row's target the one the resulting glossary returns for the term (last
occurrence wins).  However a short row, whose cell is `None`, raises instead
of being skipped. -/
theorem load_glossary_soft_behavior :
    load_glossary none = Except.ok []
    ∧ (∀ rows : List Row, (∀ r ∈ rows, r.en ≠ Cell.null ∧ r.ja ≠ Cell.null) →
        ∃ g2, load_glossary (some rows) = Except.ok g2)
    ∧ (∀ (rows1 rows2 : List Row) (r : Row) (en0 ja0 : List Char),
        getStrip r.en = Except.ok en0 → getStrip r.ja = Except.ok ja0 →
        (en0 = [] ∨ ja0 = []) →
        load_glossary (some (rows1 ++ r :: rows2)) = load_glossary (some (rows1 ++ rows2)))
    ∧ (∀ (rows : List Row) (g2 : Glossary) (e j : List Char),
        load_glossary (some rows) = Except.ok g2 →
        pyStrip e ≠ [] → pyStrip j ≠ [] →
        load_glossary (some (rows ++ [⟨Cell.str e, Cell.str j⟩]))
            = Except.ok (dictInsert g2 (pyStrip e) (pyStrip j))
          ∧ glookup (dictInsert g2 (pyStrip e) (pyStrip j)) (pyStrip e)
            = some (pyStrip j)) := by
  refine ⟨rfl, ?_, ?_, ?_⟩
  · intro rows h
    exact loadRows_ok rows h []
  · intro rows1 rows2 r en0 ja0 he hj hskip
    exact loadRows_skip_mid r en0 ja0 he hj hskip rows1 rows2 []
  · intro rows g2 e j hok he hj
    have hstep : loadRows [⟨Cell.str e, Cell.str j⟩] g2
        = Except.ok (dictInsert g2 (pyStrip e) (pyStrip j)) := by
      rw [loadRows]
      show loadRows []
          (if pyStrip e ≠ [] ∧ pyStrip j ≠ []
           then dictInsert g2 (pyStrip e) (pyStrip j) else g2)
        = Except.ok (dictInsert g2 (pyStrip e) (pyStrip j))
      rw [if_pos ⟨he, hj⟩]
      rfl
    constructor
    · show loadRows (rows ++ [⟨Cell.str e, Cell.str j⟩]) []
        = Except.ok (dictInsert g2 (pyStrip e) (pyStrip j))
      rw [loadRows_append_ok rows [⟨Cell.str e, Cell.str j⟩] [] g2 hok]
      exact hstep
    · exact glookup_dictInsert g2 (pyStrip e) (pyStrip j)

/-- C7 witness: two valid rows with the same source term "a"; the later
target "y" wins, and no error is raised. -/
theorem load_glossary_soft_behavior_witness :
    load_glossary (some [⟨Cell.str "a".data, Cell.str "x".data⟩,
        ⟨Cell.str "a".data, Cell.str "y".data⟩])
      = Except.ok (dictInsert [("a".data, "x".data)] (pyStrip "a".data) (pyStrip "y".data))
    ∧ glookup (dictInsert [("a".data, "x".data)] (pyStrip "a".data) (pyStrip "y".data))
        (pyStrip "a".data) = some (pyStrip "y".data) :=
  load_glossary_soft_behavior.2.2.2 [⟨Cell.str "a".data, Cell.str "x".data⟩]
    [("a".data, "x".data)] "a".data "y".data rfl (by decide) (by decide)

/-- C8: an input that is empty or all-whitespace is returned unchanged by
`translate_text_block`, whatever the backends, glossary and bilingual flag —
in particular no separator or copy of the original is appended. -/
theorem whitespace_passthrough (be : Backends) (t : List Char) (g : Glossary)
    (b : Bool) (h : pyStrip t = []) : translate_text_block be t g b = t := by
  rw [translate_text_block, if_pos h]

/-- C8 witness: the all-whitespace input " \n\t" with bilingual mode on. -/
theorem whitespace_passthrough_witness :
    translate_text_block ⟨true, true, fun x => Except.ok x, fun x => Except.ok x⟩
      " \n\t".data [] true = " \n\t".data :=
  whitespace_passthrough ⟨true, true, fun x => Except.ok x, fun x => Except.ok x⟩
    " \n\t".data [] true (by decide)

/-- C9: for non-whitespace input, with bilingual mode on the result is the
translated text (the dispatcher's output) followed by "\n\n[", the
source-language label "English", "]\n" and the original input; with bilingual
mode off it is the translated text verbatim. -/
theorem bilingual_composition (be : Backends) (t : List Char) (g : Glossary)
    (h : pyStrip t ≠ []) :
    translate_text_block be t g true
      = dispatch be t g ++ "\n\n[".data ++ "English".data ++ "]\n".data ++ t
    ∧ translate_text_block be t g false = dispatch be t g := by
  have hsep : bilingualSep = "\n\n[".data ++ "English".data ++ "]\n".data := by decide
  constructor
  · rw [translate_text_block, if_neg h]
    show dispatch be t g ++ bilingualSep ++ t
      = dispatch be t g ++ "\n\n[".data ++ "English".data ++ "]\n".data ++ t
    rw [hsep]
    simp [List.append_assoc]
  · rw [translate_text_block, if_neg h]
    rfl

/-- C9 witness: the concrete input "X" under the rule-based backend. -/
theorem bilingual_composition_witness :
    translate_text_block ⟨false, false, fun x => Except.ok x, fun x => Except.ok x⟩
      "X".data [] true
      = dispatch ⟨false, false, fun x => Except.ok x, fun x => Except.ok x⟩ "X".data []
        ++ "\n\n[".data ++ "English".data ++ "]\n".data ++ "X".data :=
  (bilingual_composition ⟨false, false, fun x => Except.ok x, fun x => Except.ok x⟩
    "X".data [] (by decide)).1

/-- C10: for every input, the segmentation's kind sequence is the strict
alternation text, code, …, text: there is an `n` with the kinds equal to
`kindPattern n`, the span count is the odd number `2 * n + 1`, and the first
and last spans are text spans. -/
theorem split_alternation (t : List Char) :
    (∃ n, (split_md_blocks t).map Prod.fst = kindPattern n
      ∧ (split_md_blocks t).length = 2 * n + 1)
    ∧ ((split_md_blocks t).map Prod.fst).head? = some SpanKind.text
    ∧ ((split_md_blocks t).map Prod.fst).getLast? = some SpanKind.text := by
  obtain ⟨n, h1, h2⟩ := splitF_kinds t.length t
  have h1' : (split_md_blocks t).map Prod.fst = kindPattern n := h1
  have h2' : (split_md_blocks t).length = 2 * n + 1 := h2
  refine ⟨⟨n, h1', h2'⟩, ?_, ?_⟩
  · rw [h1', kindPattern_head]
  · rw [h1', kindPattern_getLast]

end TranslateRepo
